import Mathlib

/-!
Shallow embedding of the incremental native-artifact build pipeline of
`src/Khabind.ts` (`generateBindings` and its helper closures), together with
theorems settling the specified properties.

Conventions of the embedding:
* file modification times (`Date.getTime()` values) are modelled as `Int`;
* JavaScript strings are modelled as Lean `String`, with character-list
  (`String.data`) computations for the Node `path` helpers;
* `process.env.EMSCRIPTEN` is modelled as `Option String` (`none` = unset);
* the filesystem tree walked by `addSources` is modelled as an inductive tree;
* fallible steps return `Except`.
-/

namespace Khabind

/-! ### Staleness evaluation (Khabind.ts lines 37-50)

The source sets two booleans: `recompileAll` and `rebuildBindings`.  The
tri-state verdict below is the direct reading of that if/else chain:
`recompileAll = true` corresponds to `rebuildAll`, `rebuildBindings = true`
(with `recompileAll = false`) to `rebuildBindingsOnly`, both false to `noOp`. -/

inductive StalenessVerdict where
  | noOp
  | rebuildBindingsOnly
  | rebuildAll
deriving Repr, DecidableEq

/-- Lines 42-50 of Khabind.ts: `fs.existsSync(jsLibrary)` guards the whole
comparison; inside it, `khafile` (the build-configuration file) mtime is
compared with the binding's mtime first, and only otherwise the
`webidlFile` (description) mtime. -/
def evaluateStaleness (bindingExists : Bool) (configM descM bindingM : Int) :
    StalenessVerdict :=
  if bindingExists then
    if configM > bindingM then .rebuildAll
    else if descM > bindingM then .rebuildBindingsOnly
    else .noOp
  else .rebuildBindingsOnly

/-! ### Node path helpers, modelled over character lists

These model the behaviour of Node's `path.extname`, `path.relative` and
JavaScript's `String.prototype.substr(0, n)` on the inputs the pipeline
feeds them: POSIX-style absolute roots and files discovered strictly below
the root (so `path.relative(root, file)` is plain prefix removal). -/

/-- Splits a character list at every `'/'` (used for basename extraction). -/
def splitSlash : List Char → List (List Char)
  | [] => [[]]
  | c :: rest =>
    let r := splitSlash rest
    if c = '/' then [] :: r
    else (c :: r.headD []) :: r.tail

/-- Index of the last `'.'` in a character list, if any. -/
def lastDotPos : List Char → Option Nat
  | [] => none
  | c :: rest =>
    match lastDotPos rest with
    | some i => some (i + 1)
    | none => if c = '.' then some 0 else none

/-- Node `path.extname`: the suffix of the basename starting at its last
dot, empty when the basename has no dot or the only dot is its first
character. -/
def pathExtname (p : String) : String :=
  let b := (splitSlash p.data).getLastD []
  match lastDotPos b with
  | some i => if 0 < i then String.mk (b.drop i) else ""
  | none => ""

/-- JavaScript `s.substr(0, n)`: the first `n` characters of `s`, clamped
(negative `n` yields the empty string, `n` past the end yields all of `s`). -/
def jsSubstrZero (s : String) (n : Int) : String :=
  String.mk (s.data.take n.toNat)

/-- Node `path.relative(root, p)` for the pipeline's input domain, where
`p` lies strictly below `root`: removal of the `root ++ "/"` prefix.
Other inputs (never produced by the pipeline) are returned unchanged. -/
def pathRelative (root p : String) : String :=
  if (root.data ++ ['/']).isPrefixOf p.data then
    String.mk (p.data.drop (root.data.length + 1))
  else p

/-! ### Object-artifact path derivation (Khabind.ts lines 112-114) -/

/-- Lines 112-113 of Khabind.ts, verbatim:
`relativeSource = path.relative(libRoot, file)` and
`relativeTargetFile = relativeSource.substr(0, file.length - path.extname(file).length) + ".bc"`.
Note the `substr` bound uses `file.length` (the absolute path's length),
not `relativeSource.length`. -/
def relativeTargetFile (libRoot file : String) : String :=
  let relativeSource := pathRelative libRoot file
  jsSubstrZero relativeSource
      ((file.data.length : Int) - ((pathExtname file).data.length : Int)) ++ ".bc"

/-- Line 114 of Khabind.ts:
`targetFile = path.resolve(libRoot, 'khabind', 'bytecode', relativeTargetFile)`,
for an absolute `libRoot` and a relative `relativeTargetFile`. -/
def targetFilePath (libRoot file : String) : String :=
  libRoot ++ "/khabind/bytecode/" ++ relativeTargetFile libRoot file

/-- The spec's claimed derivation, stated from its words for comparison with
`relativeTargetFile`: the root-relative source path with its extension
replaced by `.bc` (truncation bound taken from the relative path itself). -/
def claimRelativeTargetFile (libRoot file : String) : String :=
  let relativeSource := pathRelative libRoot file
  jsSubstrZero relativeSource
      ((relativeSource.data.length : Int) - ((pathExtname file).data.length : Int)) ++ ".bc"

/-! ### Per-source recompile decision (Khabind.ts lines 118-124) -/

/-- One compilation unit, as observed by `compileSource`: whether its object
artifact (`targetFile`) exists, the two mtimes compared on line 120, the
stderr text its compiler subprocess accumulates, and the subprocess exit
code passed to the `close` handler. -/
structure CompileJob where
  targetExists : Bool
  sourceMtime : Int
  targetMtime : Int
  stderr : String
  exitCode : Int
deriving Repr, DecidableEq

/-- Lines 119-124 of Khabind.ts: a source needs recompilation unless its
object artifact exists and neither `recompileAll` is set nor the source's
mtime exceeds the artifact's mtime. -/
def needsRecompile (recompileAll : Bool) (j : CompileJob) : Bool :=
  if j.targetExists then recompileAll || decide (j.sourceMtime > j.targetMtime)
  else true

/-! ### Compile-outcome classification (Khabind.ts lines 139-145) -/

inductive CompileOutcome where
  | skipped
  | compiled
  | failed (msg : String)
deriving Repr, DecidableEq

/-- Lines 139-145 of Khabind.ts: the `close` handler of the compiler
subprocess receives the exit `code` but classifies solely on the
accumulated stderr: non-empty stderr rejects with the stderr text,
empty stderr resolves. -/
def closeHandler (stderr : String) (code : Int) : CompileOutcome :=
  if stderr ≠ "" then .failed stderr else .compiled

/-! ### Toolchain resolver (Khabind.ts lines 73-84)

The source keeps two mutable string variables, `emsdk` and `emcc`, both
initialised to `""`; `ensureEmscripten` returns early when `emsdk != ""`,
otherwise assigns `emsdk = process.env.EMSCRIPTEN` (which may leave it
`undefined`), throws a diagnostic when that read gave `undefined`, and else
sets `emcc = path.join(emsdk, 'emcc')`.  The JavaScript value of `emsdk` is
modelled as `Option String` (`none` = `undefined`), and `envReads` is a
ghost counter incremented at each read of the environment variable, present
only to state how often the environment is consulted. -/

structure ToolState where
  emsdk : Option String
  emcc : String
  envReads : Nat
deriving Repr, DecidableEq

/-- Lines 73-74 of Khabind.ts: `let emsdk = ""; let emcc = "";`. -/
def initToolState : ToolState := ⟨some "", "", 0⟩

/-- Line 79 of Khabind.ts: the thrown diagnostic message. -/
def emscriptenMsg : String :=
  "EMSCRIPTEN environment variable not set cannot compile C++ library for Javascript"

/-- Node `path.join(a, "emcc")` for the values the resolver produces:
`path.join("", "emcc") = "emcc"`, and for a non-empty first component the
separator-joined concatenation. -/
def pathJoin (a b : String) : String :=
  if a = "" then b else a ++ "/" ++ b

/-- Lines 75-84 of Khabind.ts.  `env` is the value of
`process.env.EMSCRIPTEN` at the moment of the call.  On failure the thrown
message is returned together with the mutated state (the source assigns
`emsdk` before throwing). -/
def ensureEmscripten (env : Option String) (s : ToolState) :
    Except (String × ToolState) ToolState :=
  if s.emsdk ≠ some "" then .ok s
  else
    let s1 : ToolState := { s with emsdk := env, envReads := s.envReads + 1 }
    match env with
    | none => .error (emscriptenMsg, s1)
    | some v => .ok { s1 with emcc := pathJoin v "emcc" }

/-! ### Compilation scheduler and pipeline run (Khabind.ts lines 109-182)

The scheduler (`Throttle.all` with `failFast: true`, lines 153-159) is
modelled sequentially: jobs are dispatched in source order and no further
job is started once one has rejected.  Claims proved over this model do not
concern in-flight concurrency.  A thrown resolver error is modelled as
aborting the run (`toolchainError`); the link stage is otherwise always
reached, because the `catch` on line 157 only logs a compile failure. -/

structure SchedState where
  tool : ToolState
  invalidateCache : Bool
  outcomes : List CompileOutcome
  firstFailure : Option String
  toolchainError : Option String
deriving Repr, DecidableEq

def initSchedState : SchedState := ⟨initToolState, false, [], none, none⟩

/-- One `compileSource` call (lines 109-150): decide staleness; when stale,
resolve the toolchain (lines 121/124), set `invalidateCache` (lines
122/124), run the compiler and classify via `closeHandler`; when fresh,
resolve immediately (line 147). -/
def runJob (recompileAll : Bool) (env : Option String) (j : CompileJob)
    (s : SchedState) : SchedState :=
  if needsRecompile recompileAll j then
    match ensureEmscripten env s.tool with
    | .error (msg, ts) => { s with tool := ts, toolchainError := some msg }
    | .ok ts =>
      let s1 := { s with tool := ts, invalidateCache := true }
      match closeHandler j.stderr j.exitCode with
      | .failed m =>
        { s1 with outcomes := s1.outcomes ++ [.failed m], firstFailure := some m }
      | _ => { s1 with outcomes := s1.outcomes ++ [.compiled] }
  else { s with outcomes := s.outcomes ++ [.skipped] }

/-- Lines 153-159 of Khabind.ts: dispatch jobs in order, fail-fast — once a
job has rejected (or the resolver has thrown) no further job is started. -/
def runJobs (recompileAll : Bool) (env : Option String) :
    List CompileJob → SchedState → SchedState
  | [], s => s
  | j :: rest, s =>
    if s.firstFailure.isSome || s.toolchainError.isSome then s
    else runJobs recompileAll env rest (runJob recompileAll env j s)

/-- Lines 176-181 of Khabind.ts: the link subprocess's captured stderr is
logged at error level when non-empty, its stdout at info level when
non-empty; the exit status of `spawnSync` (modelled by `code`) is never
consulted and the stage never fails.  The result is the pair
(error-level diagnostic, info-level diagnostic). -/
def linkClose (stderr stdout : String) (code : Int) :
    Option String × Option String :=
  (if stderr ≠ "" then some stderr else none,
   if stdout ≠ "" then some stdout else none)

/-- Inputs of one run of the compile-and-link section (lines 72-183): the
`recompileAll` verdict flag, the `EMSCRIPTEN` environment value, the
discovered jobs in discovery order, whether the final `.js` artifact exists
(line 162), and the link subprocess's observable behaviour. -/
structure RunInput where
  recompileAll : Bool
  env : Option String
  jobs : List CompileJob
  finalExists : Bool
  linkStderr : String
  linkStdout : String
  linkExitCode : Int
deriving Repr, DecidableEq

structure RunResult where
  sched : SchedState
  linkInvoked : Bool
  linkErrDiag : Option String
  linkInfoDiag : Option String
deriving Repr, DecidableEq

/-- Lines 152-182 of Khabind.ts: run the throttled jobs; the rejection, if
any, is caught and merely logged (line 157-159), so the run continues; the
link stage runs iff `invalidateCache` is set or the final artifact is
missing (line 162), resolving the toolchain again (line 164) and then
invoking the linker, whose stderr/stdout are turned into diagnostics by
`linkClose`.  A thrown resolver error aborts the run. -/
def runPipeline (inp : RunInput) : RunResult :=
  let s := runJobs inp.recompileAll inp.env inp.jobs initSchedState
  if s.toolchainError.isSome then ⟨s, false, none, none⟩
  else if s.invalidateCache || !inp.finalExists then
    match ensureEmscripten inp.env s.tool with
    | .error (msg, ts) =>
      ⟨{ s with tool := ts, toolchainError := some msg }, false, none, none⟩
    | .ok ts =>
      let d := linkClose inp.linkStderr inp.linkStdout inp.linkExitCode
      ⟨{ s with tool := ts }, true, d.1, d.2⟩
  else ⟨s, false, none, none⟩

/-- A run completes normally (the promise returned by `generateBindings`
resolves) exactly when no resolver error was thrown. -/
def completes (r : RunResult) : Bool := r.sched.toolchainError.isNone

/-! ### Source discovery (Khabind.ts lines 92-106)

`addSources(dir)` returns when `dir` does not exist or is not a directory;
otherwise it iterates `fs.readdirSync(dir)` in listing order, recursing
into subdirectories and pushing `path.resolve(dir, item)` for files whose
name ends in `.cpp` or `.c`.  The directory tree visible to one walk is
modelled as an inductive tree whose child lists carry the `readdirSync`
order; a root path's stat result is `Option FsEntry` (`none` = missing). -/

inductive FsEntry where
  | file (name : String)
  | dir (name : String) (entries : List FsEntry)

/-- Line 98 of Khabind.ts: `item.endsWith('.cpp') || item.endsWith('.c')`. -/
def isSourceName (n : String) : Bool :=
  ".cpp".data.isSuffixOf n.data || ".c".data.isSuffixOf n.data

mutual

/-- The walk over one entry of a directory listing (body of the `for` loop,
lines 94-101): recurse into directories, collect matching file names. -/
def addSourcesEntry (pre : String) : FsEntry → List String
  | .file n => if isSourceName n then [pre ++ "/" ++ n] else []
  | .dir n es => addSourcesEntries (pre ++ "/" ++ n) es

/-- The walk over a directory listing in `readdirSync` order. -/
def addSourcesEntries (pre : String) : List FsEntry → List String
  | [] => []
  | e :: rest => addSourcesEntry pre e ++ addSourcesEntries pre rest

end

/-- Lines 92-102 of Khabind.ts: the guard on line 93 makes a missing root
or a non-directory root contribute nothing. -/
def addSources (dirPath : String) : Option FsEntry → List String
  | some (.dir _ es) => addSourcesEntries dirPath es
  | _ => []

mutual

/-- All file paths of one entry, each paired with the file's own name,
in listing order (stated from the spec's words, for comparison with
`addSourcesEntry`). -/
def allFilesEntry (pre : String) : FsEntry → List (String × String)
  | .file n => [(pre ++ "/" ++ n, n)]
  | .dir n es => allFilesEntries (pre ++ "/" ++ n) es

/-- All file paths of a directory listing, paired with their names. -/
def allFilesEntries (pre : String) : List FsEntry → List (String × String)
  | [] => []
  | e :: rest => allFilesEntry pre e ++ allFilesEntries pre rest

end

/-- The spec's claimed discovery result: exactly the files whose names end
in a compilable extension, in tree order. -/
def claimDiscoverEntries (pre : String) (es : List FsEntry) : List String :=
  ((allFilesEntries pre es).filter (fun pn => isSourceName pn.2)).map (·.1)

/-- The claim's skip condition for one source, stated from its words: the
object artifact exists, is strictly newer than the source, and the global
full-rebuild flag is not set. -/
def claimSkipCondition (recompileAll : Bool) (j : CompileJob) : Bool :=
  j.targetExists && decide (j.targetMtime > j.sourceMtime) && !recompileAll

/-! ## Theorems -/

/-- C1: the staleness evaluation is a pure function of the binding
artifact's existence and the three mtimes with the exact case order of
lines 42-50: missing binding yields `rebuildBindingsOnly` (never
`rebuildAll`, never `noOp`); otherwise a config file newer than the
binding yields `rebuildAll` regardless of the description mtime; otherwise
a description file newer than the binding yields `rebuildBindingsOnly`;
otherwise `noOp`. -/
theorem evaluateStaleness_case_order (configM descM bindingM : Int) :
    (evaluateStaleness false configM descM bindingM = .rebuildBindingsOnly ∧
      evaluateStaleness false configM descM bindingM ≠ .rebuildAll ∧
      evaluateStaleness false configM descM bindingM ≠ .noOp) ∧
    (configM > bindingM →
      evaluateStaleness true configM descM bindingM = .rebuildAll) ∧
    (configM ≤ bindingM → descM > bindingM →
      evaluateStaleness true configM descM bindingM = .rebuildBindingsOnly) ∧
    (configM ≤ bindingM → descM ≤ bindingM →
      evaluateStaleness true configM descM bindingM = .noOp) := by
  refine ⟨⟨rfl, by simp [evaluateStaleness], by simp [evaluateStaleness]⟩, ?_, ?_, ?_⟩
  · intro h
    simp [evaluateStaleness, h]
  · intro h1 h2
    have hc : ¬(configM > bindingM) := by omega
    simp [evaluateStaleness, hc, h2]
  · intro h1 h2
    have hc : ¬(configM > bindingM) := by omega
    have hd : ¬(descM > bindingM) := by omega
    simp [evaluateStaleness, hc, hd]

/-- Witness for `evaluateStaleness_case_order` at concrete mtimes. -/
theorem evaluateStaleness_case_order_witness :
    evaluateStaleness true 5 0 4 = .rebuildAll ∧
    evaluateStaleness true 3 7 4 = .rebuildBindingsOnly ∧
    evaluateStaleness true 3 2 4 = .noOp :=
  ⟨(evaluateStaleness_case_order 5 0 4).2.1 (by decide),
   (evaluateStaleness_case_order 3 7 4).2.2.1 (by decide) (by decide),
   (evaluateStaleness_case_order 3 2 4).2.2.2 (by decide) (by decide)⟩

/-- C2: line 113 truncates `relativeSource` with the bound
`file.length - path.extname(file).length`, computed from the absolute
path's length instead of the relative path's length; since the absolute
path is longer, the truncation is a no-op and `.bc` is appended after the
still-present source extension.  For the source `/lib/sub/foo.cpp` under
root `/lib` the code derives `sub/foo.cpp.bc`, while the intended
derivation (extension replaced, `claimRelativeTargetFile`) gives
`sub/foo.bc`. -/
theorem relativeTargetFile_extension_appended :
    relativeTargetFile "/lib" "/lib/sub/foo.cpp" = "sub/foo.cpp.bc" ∧
    claimRelativeTargetFile "/lib" "/lib/sub/foo.cpp" = "sub/foo.bc" ∧
    relativeTargetFile "/lib" "/lib/sub/foo.cpp" ≠
      claimRelativeTargetFile "/lib" "/lib/sub/foo.cpp" ∧
    targetFilePath "/lib" "/lib/sub/foo.cpp" =
      "/lib/khabind/bytecode/sub/foo.cpp.bc" := by
  refine ⟨by decide, by decide, by decide, by decide⟩

/-- C4 counterexample: with the artifact present, equal mtimes (5 and 5)
and no full-rebuild flag, the code skips the source
(`needsRecompile = false`) although the claim's skip condition — the
artifact strictly newer than the source — does not hold. -/
theorem skip_despite_equal_mtimes :
    needsRecompile false ⟨true, 5, 5, "", 0⟩ = false ∧
    claimSkipCondition false ⟨true, 5, 5, "", 0⟩ = false := by
  decide

/-- C4 amended: a source is skipped iff its object artifact exists, the
artifact's mtime is at least (not strictly greater than) the source's
mtime, and the full-rebuild flag is unset; with the flag set every source
is compiled, and a missing artifact always compiles. -/
theorem skip_iff_fresh_artifact (r : Bool) (j : CompileJob)
    (sm tm : Int) (se : String) (ec : Int) :
    (needsRecompile r j = false ↔
      j.targetExists = true ∧ j.targetMtime ≥ j.sourceMtime ∧ r = false) ∧
    needsRecompile true j = true ∧
    needsRecompile r ⟨false, sm, tm, se, ec⟩ = true := by
  obtain ⟨te, jsm, jtm, js, je⟩ := j
  refine ⟨?_, ?_, ?_⟩
  · cases te <;> cases r <;> simp [needsRecompile] <;> omega
  · cases te <;> simp [needsRecompile]
  · simp [needsRecompile]

/-- C5: the `close` handler classifies purely on accumulated stderr — it
fails with exactly the captured stderr text iff that text is non-empty,
succeeds on empty stderr, and is independent of the exit code it is
passed. -/
theorem closeHandler_classifies_by_stderr (stderr : String) (c c' : Int) :
    (closeHandler stderr c = .failed stderr ↔ stderr ≠ "") ∧
    closeHandler "" c = .compiled ∧
    closeHandler stderr c = closeHandler stderr c' := by
  refine ⟨?_, rfl, rfl⟩
  by_cases h : stderr = "" <;> simp [closeHandler, h]

/-! ### Scheduler invariants -/

/-- With the environment variable present (any value, including the empty
string), the resolver never throws. -/
lemma ensureEmscripten_ok_of_isSome (env : Option String) (h : env.isSome = true)
    (t : ToolState) : ∃ t', ensureEmscripten env t = .ok t' := by
  obtain ⟨v, rfl⟩ := Option.isSome_iff_exists.mp h
  by_cases hg : t.emsdk ≠ some ""
  · exact ⟨t, by simp [ensureEmscripten, hg]⟩
  · refine ⟨⟨some v, pathJoin v "emcc", t.envReads + 1⟩, ?_⟩
    simp [ensureEmscripten, hg]

/-- The invariant threaded through the scheduler: no resolver error has
been thrown, the invalidation flag is set exactly when some dispatched
outcome is not a skip, and a recorded failure implies the invalidation
flag. -/
def SchedInv (s : SchedState) : Prop :=
  s.toolchainError = none ∧
  (s.invalidateCache = true ↔ ∃ o ∈ s.outcomes, o ≠ CompileOutcome.skipped) ∧
  (s.firstFailure.isSome = true → s.invalidateCache = true)

lemma schedInv_init : SchedInv initSchedState := by
  refine ⟨rfl, by simp [initSchedState], by simp [initSchedState]⟩

lemma runJob_inv (r : Bool) (env : Option String) (h : env.isSome = true)
    (j : CompileJob) (s : SchedState) (hs : SchedInv s) :
    SchedInv (runJob r env j s) := by
  obtain ⟨hte, hiv, hff⟩ := hs
  by_cases hn : needsRecompile r j
  · obtain ⟨ts, hts⟩ := ensureEmscripten_ok_of_isSome env h s.tool
    by_cases hst : j.stderr = ""
    · have hc : closeHandler j.stderr j.exitCode = .compiled := by
        simp [closeHandler, hst]
      refine ⟨?_, ?_, ?_⟩ <;> simp [runJob, hn, hts, hc, hte]
      exact ⟨.compiled, Or.inr rfl, by simp⟩
    · have hc : closeHandler j.stderr j.exitCode = .failed j.stderr := by
        simp [closeHandler, hst]
      refine ⟨?_, ?_, ?_⟩ <;> simp [runJob, hn, hts, hc, hte]
      exact ⟨.failed j.stderr, Or.inr rfl, by simp⟩
  · refine ⟨?_, ?_, ?_⟩ <;> simp [runJob, hn, hte]
    · constructor
      · intro hi
        obtain ⟨o, ho, hne⟩ := hiv.mp hi
        exact ⟨o, Or.inl ho, hne⟩
      · intro ⟨o, ho, hne⟩
        rcases ho with ho | ho
        · exact hiv.mpr ⟨o, ho, hne⟩
        · simp [ho] at hne
    · exact hff

/-- Fields of the scheduler state other than the tool state change
monotonically in `runJob`; in particular the invalidation flag never
resets. -/
lemma runJobs_inv (r : Bool) (env : Option String) (h : env.isSome = true)
    (js : List CompileJob) (s : SchedState) (hs : SchedInv s) :
    SchedInv (runJobs r env js s) := by
  induction js generalizing s with
  | nil => exact hs
  | cons j rest ih =>
    by_cases hstop : s.firstFailure.isSome || s.toolchainError.isSome
    · simpa [runJobs, hstop] using hs
    · simp only [runJobs, hstop, if_false, Bool.false_eq_true]
      exact ih _ (runJob_inv r env h j s hs)

/-- Characterisation of one full pipeline run when the environment
variable is present: the run completes, the scheduler's fields are those
of `runJobs`, the link stage runs exactly when the invalidation flag is
set or the final artifact is missing, and when it runs its diagnostics
are those of `linkClose`. -/
lemma runPipeline_char (inp : RunInput) (h : inp.env.isSome = true) :
    (runPipeline inp).sched.toolchainError = none ∧
    (runPipeline inp).sched.invalidateCache =
      (runJobs inp.recompileAll inp.env inp.jobs initSchedState).invalidateCache ∧
    (runPipeline inp).sched.outcomes =
      (runJobs inp.recompileAll inp.env inp.jobs initSchedState).outcomes ∧
    (runPipeline inp).sched.firstFailure =
      (runJobs inp.recompileAll inp.env inp.jobs initSchedState).firstFailure ∧
    (runPipeline inp).linkInvoked =
      ((runJobs inp.recompileAll inp.env inp.jobs initSchedState).invalidateCache
        || !inp.finalExists) ∧
    ((runPipeline inp).linkInvoked = true →
      (runPipeline inp).linkErrDiag =
        (linkClose inp.linkStderr inp.linkStdout inp.linkExitCode).1 ∧
      (runPipeline inp).linkInfoDiag =
        (linkClose inp.linkStderr inp.linkStdout inp.linkExitCode).2) := by
  have hinv := runJobs_inv inp.recompileAll inp.env h inp.jobs initSchedState schedInv_init
  obtain ⟨hte, _, _⟩ := hinv
  set s := runJobs inp.recompileAll inp.env inp.jobs initSchedState with hsdef
  by_cases hgate : (s.invalidateCache || !inp.finalExists) = true
  · obtain ⟨ts, hts⟩ := ensureEmscripten_ok_of_isSome inp.env h s.tool
    simp [runPipeline, ← hsdef, hte, hgate, hts]
  · have hgate' : (s.invalidateCache || !inp.finalExists) = false := by
      simpa using hgate
    simp [runPipeline, ← hsdef, hte, hgate']

/-- Concrete run with one failing compilation unit: its object artifact is
missing, so it is dispatched, and its compiler subprocess accumulates the
stderr text "boom". -/
def cexFailingRun : RunInput :=
  ⟨false, some "/emsdk", [⟨false, 0, 0, "boom", 0⟩], true, "", "", 0⟩

/-- C3 counterexample: in `cexFailingRun` a compilation unit rejects with
"boom", yet the linker is still invoked and the pipeline completes
normally — the `catch` on line 157 of Khabind.ts only logs the failure, so
the failure is not terminal and the Link Stage is reached. -/
theorem compileFailure_linker_still_invoked :
    (runPipeline cexFailingRun).sched.firstFailure = some "boom" ∧
    (runPipeline cexFailingRun).linkInvoked = true ∧
    completes (runPipeline cexFailingRun) = true := by
  decide

/-- C3 amended: the scheduler records the first failure fail-fast, but the
failure is caught and logged rather than surfaced as a terminal error: the
pipeline continues, and since a failing unit had already set the
invalidation flag the Link Stage condition holds and the linker is
invoked; the run completes normally. -/
theorem compileFailure_logged_pipeline_continues (inp : RunInput)
    (h : inp.env.isSome = true)
    (hf : (runPipeline inp).sched.firstFailure.isSome = true) :
    (runPipeline inp).sched.invalidateCache = true ∧
    (runPipeline inp).linkInvoked = true ∧
    completes (runPipeline inp) = true := by
  obtain ⟨hte, hiv, _, hffeq, hlink, _⟩ := runPipeline_char inp h
  obtain ⟨_, _, hff⟩ :=
    runJobs_inv inp.recompileAll inp.env h inp.jobs initSchedState schedInv_init
  have hjf : (runJobs inp.recompileAll inp.env inp.jobs
      initSchedState).firstFailure.isSome = true := by
    rw [← hffeq]; exact hf
  have hi := hff hjf
  refine ⟨by rw [hiv]; exact hi, ?_, by simp [completes, hte]⟩
  rw [hlink, hi]
  rfl

/-- Concrete failing run used to instantiate
`compileFailure_logged_pipeline_continues`. -/
def wFailingRun : RunInput :=
  ⟨false, some "/sdk", [⟨false, 0, 0, "err", 0⟩], true, "", "", 0⟩

/-- Witness for `compileFailure_logged_pipeline_continues`. -/
theorem compileFailure_logged_pipeline_continues_witness :
    (runPipeline wFailingRun).sched.invalidateCache = true ∧
    (runPipeline wFailingRun).linkInvoked = true ∧
    completes (runPipeline wFailingRun) = true :=
  compileFailure_logged_pipeline_continues wFailingRun (by decide) (by decide)

/-- C6: the Link Stage runs iff the invalidation flag is set or the final
artifact is missing, and the invalidation flag is set iff at least one
dispatched source was not skipped (its compiler was actually invoked). -/
theorem linkGate_iff_anyChanged_or_missing (inp : RunInput)
    (h : inp.env.isSome = true) :
    ((runPipeline inp).linkInvoked =
      ((runPipeline inp).sched.invalidateCache || !inp.finalExists)) ∧
    ((runPipeline inp).sched.invalidateCache = true ↔
      ∃ o ∈ (runPipeline inp).sched.outcomes, o ≠ CompileOutcome.skipped) := by
  obtain ⟨hte, hiv, hout, _, hlink, _⟩ := runPipeline_char inp h
  obtain ⟨_, hiv2, _⟩ :=
    runJobs_inv inp.recompileAll inp.env h inp.jobs initSchedState schedInv_init
  constructor
  · rw [hlink, hiv]
  · rw [hiv, hout]
    exact hiv2

/-- Concrete run used to instantiate `linkGate_iff_anyChanged_or_missing`:
one fresh (skipped) source and a missing final artifact. -/
def wGateRun : RunInput :=
  ⟨false, some "/sdk", [⟨true, 0, 5, "", 0⟩], false, "", "", 0⟩

/-- Witness for `linkGate_iff_anyChanged_or_missing`. -/
theorem linkGate_iff_anyChanged_or_missing_witness :
    ((runPipeline wGateRun).linkInvoked =
      ((runPipeline wGateRun).sched.invalidateCache || !wGateRun.finalExists)) ∧
    ((runPipeline wGateRun).sched.invalidateCache = true ↔
      ∃ o ∈ (runPipeline wGateRun).sched.outcomes, o ≠ CompileOutcome.skipped) :=
  linkGate_iff_anyChanged_or_missing wGateRun (by decide)

/-- When no dispatched job needs recompilation, the scheduler only appends
skip outcomes: the tool state, the invalidation flag, the failure slots
are untouched. -/
lemma runJobs_all_fresh (r : Bool) (env : Option String) :
    ∀ (js : List CompileJob) (s : SchedState),
      (∀ j ∈ js, needsRecompile r j = false) →
      (runJobs r env js s).tool = s.tool ∧
      (runJobs r env js s).invalidateCache = s.invalidateCache ∧
      (runJobs r env js s).toolchainError = s.toolchainError ∧
      (runJobs r env js s).firstFailure = s.firstFailure := by
  intro js
  induction js with
  | nil =>
    intro s _
    exact ⟨rfl, rfl, rfl, rfl⟩
  | cons j rest ih =>
    intro s hfresh
    by_cases hstop : (s.firstFailure.isSome || s.toolchainError.isSome) = true
    · simp [runJobs, hstop]
    · have hj : needsRecompile r j = false := hfresh j (by simp)
      have hjob : runJob r env j s = { s with outcomes := s.outcomes ++ [.skipped] } := by
        simp [runJob, hj]
      have hstep : runJobs r env (j :: rest) s =
          runJobs r env rest { s with outcomes := s.outcomes ++ [.skipped] } := by
        rw [runJobs, if_neg (by simpa using hstop), hjob]
      obtain ⟨h1, h2, h3, h4⟩ :=
        ih { s with outcomes := s.outcomes ++ [.skipped] }
          (fun x hx => hfresh x (List.mem_cons_of_mem _ hx))
      rw [hstep]
      exact ⟨h1, h2, h3, h4⟩

/-- C7 counterexample: when `EMSCRIPTEN` is set to the empty string, the
memoization guard `emsdk != ""` never becomes true, so every call re-reads
the environment (the ghost counter advances past 1), and a change of the
environment between calls is picked up instead of a cached handle being
returned. -/
theorem emptyEnv_reread_each_call :
    ensureEmscripten (some "") initToolState = .ok ⟨some "", "emcc", 1⟩ ∧
    ensureEmscripten (some "") ⟨some "", "emcc", 1⟩ = .ok ⟨some "", "emcc", 2⟩ ∧
    ensureEmscripten (some "/sdk") ⟨some "", "emcc", 1⟩ =
      .ok ⟨some "/sdk", "/sdk/emcc", 2⟩ := by
  refine ⟨rfl, rfl, rfl⟩

/-- C7 amended: the resolver is lazy — a run in which no source is stale
and the final artifact exists never consults the environment (it completes
even with `EMSCRIPTEN` unset); it is memoized whenever the value read at
first need is not the empty string — subsequent calls return the state
unchanged without re-reading the environment; and when the variable is
absent at first need it fails with the fixed diagnostic.  (When the
variable is set to the empty string, the guard `emsdk != ""` stays false
and each call re-reads the environment.) -/
theorem toolchain_lazy_memoized :
    (∀ inp : RunInput,
      (∀ j ∈ inp.jobs, needsRecompile inp.recompileAll j = false) →
      inp.finalExists = true →
      (runPipeline inp).sched.tool.envReads = 0 ∧
      completes (runPipeline inp) = true) ∧
    (∀ (env env2 : Option String) (t : ToolState), env ≠ some "" →
      ensureEmscripten env initToolState = .ok t →
      ensureEmscripten env2 t = .ok t ∧ t.envReads = 1) ∧
    ensureEmscripten none initToolState = .error (emscriptenMsg, ⟨none, "", 1⟩) := by
  refine ⟨?_, ?_, rfl⟩
  · intro inp hfresh hfe
    obtain ⟨h1, h2, h3, h4⟩ :=
      runJobs_all_fresh inp.recompileAll inp.env inp.jobs initSchedState hfresh
    set s := runJobs inp.recompileAll inp.env inp.jobs initSchedState with hsdef
    have hte : s.toolchainError = none := by rw [h3]; rfl
    have hgate : (s.invalidateCache || !inp.finalExists) = false := by
      rw [h2, hfe]; rfl
    have hrun : runPipeline inp = ⟨s, false, none, none⟩ := by
      simp [runPipeline, ← hsdef, hte, hgate]
    rw [hrun]
    exact ⟨by rw [h1]; rfl, by simp [completes, hte]⟩
  · intro env env2 t hne hok
    cases env with
    | none => simp [ensureEmscripten, initToolState] at hok
    | some v =>
      have hv : ¬(v = "") := fun hh => hne (by rw [hh])
      have hfirst : ensureEmscripten (some v) initToolState =
          .ok ⟨some v, pathJoin v "emcc", 1⟩ := by
        simp [ensureEmscripten, initToolState]
      rw [hfirst] at hok
      injection hok with hok
      subst hok
      refine ⟨?_, rfl⟩
      simp [ensureEmscripten, hv]

/-- Concrete nothing-stale run (with `EMSCRIPTEN` unset) used to
instantiate `toolchain_lazy_memoized`. -/
def wFreshRun : RunInput :=
  ⟨false, none, [⟨true, 0, 5, "", 0⟩], true, "", "", 0⟩

/-- Witness for `toolchain_lazy_memoized`. -/
theorem toolchain_lazy_memoized_witness :
    ((runPipeline wFreshRun).sched.tool.envReads = 0 ∧
      completes (runPipeline wFreshRun) = true) ∧
    (ensureEmscripten none ⟨some "/w", "/w/emcc", 1⟩ =
        .ok ⟨some "/w", "/w/emcc", 1⟩ ∧
      (⟨some "/w", "/w/emcc", 1⟩ : ToolState).envReads = 1) :=
  ⟨toolchain_lazy_memoized.1 wFreshRun (by decide) rfl,
   toolchain_lazy_memoized.2.1 (some "/w") none ⟨some "/w", "/w/emcc", 1⟩
     (by simp) rfl⟩

/-- C8: with the environment present, the run never fails because of
linker stderr: the pipeline completes for every linker stderr/stdout pair,
and when the link stage runs, non-empty stderr becomes an error-level
diagnostic and non-empty stdout an informational one. -/
theorem linkStage_never_fails (inp : RunInput) (h : inp.env.isSome = true) :
    completes (runPipeline inp) = true ∧
    ((runPipeline inp).linkInvoked = true →
      (runPipeline inp).linkErrDiag =
        (if inp.linkStderr = "" then none else some inp.linkStderr) ∧
      (runPipeline inp).linkInfoDiag =
        (if inp.linkStdout = "" then none else some inp.linkStdout)) := by
  obtain ⟨hte, _, _, _, _, hdiag⟩ := runPipeline_char inp h
  refine ⟨by simp [completes, hte], ?_⟩
  intro hl
  obtain ⟨h1, h2⟩ := hdiag hl
  constructor
  · rw [h1]
    by_cases hs : inp.linkStderr = "" <;> simp [linkClose, hs]
  · rw [h2]
    by_cases hs : inp.linkStdout = "" <;> simp [linkClose, hs]

/-- Concrete run whose linker emits stderr "warning: x" and stdout "done",
used to instantiate `linkStage_never_fails`. -/
def wLinkRun : RunInput :=
  ⟨false, some "/sdk", [], false, "warning: x", "done", 0⟩

/-- Witness for `linkStage_never_fails`. -/
theorem linkStage_never_fails_witness :
    completes (runPipeline wLinkRun) = true ∧
    ((runPipeline wLinkRun).linkInvoked = true →
      (runPipeline wLinkRun).linkErrDiag =
        (if wLinkRun.linkStderr = "" then none else some wLinkRun.linkStderr) ∧
      (runPipeline wLinkRun).linkInfoDiag =
        (if wLinkRun.linkStdout = "" then none else some wLinkRun.linkStdout)) :=
  linkStage_never_fails wLinkRun (by decide)

/-- C10: neither the compile step nor the link step inspects the
subprocess exit code: the close handler's classification and the link
diagnostics are invariant under changes of the exit code, non-zero exit
with empty stderr classifies as a successful compile, and the whole run is
invariant under the linker's exit code. -/
theorem exit_codes_never_inspected (se so : String) (c c' : Int)
    (r : Bool) (env : Option String) (j : CompileJob) (s : SchedState)
    (inp : RunInput) :
    closeHandler se c = closeHandler se c' ∧
    closeHandler "" c = .compiled ∧
    linkClose se so c = linkClose se so c' ∧
    runJob r env { j with exitCode := c } s =
      runJob r env { j with exitCode := c' } s ∧
    runPipeline { inp with linkExitCode := c } =
      runPipeline { inp with linkExitCode := c' } := by
  refine ⟨rfl, rfl, rfl, ?_, ?_⟩
  · simp only [runJob, needsRecompile, closeHandler]
  · simp only [runPipeline, runJobs, linkClose]

/-! ### Discovery equals the filtered file listing -/

mutual

theorem addSourcesEntry_eq_claim (pre : String) (e : FsEntry) :
    addSourcesEntry pre e =
      ((allFilesEntry pre e).filter (fun pn => isSourceName pn.2)).map (·.1) := by
  cases e with
  | file n =>
    by_cases h : isSourceName n <;>
      simp [addSourcesEntry, allFilesEntry, h]
  | dir n es =>
    simpa [addSourcesEntry, allFilesEntry, claimDiscoverEntries] using
      addSourcesEntries_eq_claim (pre ++ "/" ++ n) es

theorem addSourcesEntries_eq_claim (pre : String) (es : List FsEntry) :
    addSourcesEntries pre es = claimDiscoverEntries pre es := by
  cases es with
  | nil => rfl
  | cons e rest =>
    simp [addSourcesEntries, claimDiscoverEntries, allFilesEntries,
      List.filter_append, List.map_append,
      addSourcesEntry_eq_claim pre e, addSourcesEntries_eq_claim pre rest]

end

/-- C9: the walk collects exactly the files whose names end in `.cpp` or
`.c`, in the walk's (listing) order; a missing root or a non-directory
root contributes nothing; a tree without matching files contributes
nothing; and discovery of a fixed tree is deterministic (the walk is a
pure function of the tree, which models a fixed filesystem state). -/
theorem discovery_collects_exactly_sources (p pre n : String)
    (es : List FsEntry) (t : Option FsEntry) :
    addSourcesEntries pre es = claimDiscoverEntries pre es ∧
    addSources p none = [] ∧
    addSources p (some (.file n)) = [] ∧
    addSources p t = addSources p t ∧
    ((∀ pn ∈ allFilesEntries pre es, isSourceName pn.2 = false) →
      addSourcesEntries pre es = []) := by
  refine ⟨addSourcesEntries_eq_claim pre es, rfl, rfl, rfl, ?_⟩
  intro hnone
  rw [addSourcesEntries_eq_claim pre es]
  simp only [claimDiscoverEntries, List.map_eq_nil_iff, List.filter_eq_nil_iff]
  intro a ha
  simp [hnone a ha]

/-- Witness for `discovery_collects_exactly_sources`: a tree holding only
non-compilable files is discovered as empty. -/
theorem discovery_collects_exactly_sources_witness :
    addSourcesEntries "/r"
      [FsEntry.file "a.md", FsEntry.dir "s" [FsEntry.file "b.txt"]] = [] :=
  (discovery_collects_exactly_sources "/x" "/r" "n.c"
      [FsEntry.file "a.md", FsEntry.dir "s" [FsEntry.file "b.txt"]] none).2.2.2.2
    (by decide)

end Khabind
